import Mathlib

/-!
Shallow embedding of the reconciliation-and-backfill pipeline and the
charging-power estimator of the uvo2sprit repository
(`VehicleClient.py`, `SpritMonitorClient.py`).

Conventions of the embedding:
* Python floats are modelled as exact rationals (`ℚ`); `round(x, 1)` is
  modelled as ideal decimal round-half-to-even (`round1` below).
* `datetime.date` values are modelled by a `Date` structure with the
  lexicographic key order that `datetime` comparison realises;
  `timedelta(days=1)` subtraction is modelled by calendar-accurate
  `Date.prevDay`.
* Python's stable `sorted` is modelled by `List.insertionSort`, which is
  also stable.
* Exceptions raised/caught in the upload loop are modelled by explicit
  success oracles and an outcome value (`runSequencer`).
* String formatting of dates and the free-text `note` field are not part
  of any verified property and are omitted from the record structure.
-/

/-- Approximation of the proleptic Gregorian leap-year rule used by
`datetime`. -/
def isLeap (y : Nat) : Bool :=
  y % 4 == 0 && (y % 100 != 0 || y % 400 == 0)

/-- Number of days of month `m` of year `y` (Gregorian calendar). -/
def daysInMonth (y m : Nat) : Nat :=
  if m = 2 then (if isLeap y then 29 else 28)
  else if m = 4 ∨ m = 6 ∨ m = 9 ∨ m = 11 then 30
  else 31

/-- A calendar date, as carried by Python `datetime.date`. -/
structure Date where
  year : Nat
  month : Nat
  day : Nat
deriving DecidableEq, Repr

/-- Numeric key realising the comparison order of `datetime.date`
(lexicographic on year, month, day; faithful for valid dates since
`month ≤ 12 < 100` and `day ≤ 31 < 100`). -/
def Date.key (d : Date) : Nat :=
  (d.year * 100 + d.month) * 100 + d.day

/-- Numeric form of `date.strftime("%Y%m")`, the month token used by the
upload sequencer to detect month boundaries. -/
def Date.monthToken (d : Date) : Nat :=
  d.year * 100 + d.month

/-- The constraints `datetime.date` enforces on its components. -/
def Date.valid (d : Date) : Prop :=
  1 ≤ d.year ∧ 1 ≤ d.month ∧ d.month ≤ 12 ∧ 1 ≤ d.day ∧
    d.day ≤ daysInMonth d.year d.month

instance (d : Date) : Decidable d.valid := by
  unfold Date.valid; infer_instance

/-- `d - timedelta(days=1)`: the previous calendar day. -/
def Date.prevDay (d : Date) : Date :=
  if 1 < d.day then ⟨d.year, d.month, d.day - 1⟩
  else if 1 < d.month then ⟨d.year, d.month - 1, daysInMonth d.year (d.month - 1)⟩
  else ⟨d.year - 1, 12, 31⟩

/-- Round-half-to-even to an integer (the rounding Python's `round`
performs, on exact rationals). -/
def roundHalfEven (x : ℚ) : ℤ :=
  let n := ⌊x⌋
  let frac := x - n
  if frac < 1/2 then n
  else if 1/2 < frac then n + 1
  else if n % 2 = 0 then n else n + 1

/-- Python `round(x, 1)` on exact rationals. -/
def round1 (x : ℚ) : ℚ :=
  (roundHalfEven (x * 10) : ℚ) / 10

/-- Python `int(x)`: truncation toward zero. -/
def truncQ (x : ℚ) : ℤ :=
  if 0 ≤ x then ⌊x⌋ else ⌈x⌉

/-- `ChargeType` enum of `VehicleClient.py`. -/
inductive ChargeType where
  | DC
  | AC
  | UNKNOWN
deriving DecidableEq, Repr

/-- `ChargeType.value.lower()` as used for the `charge_info` field. -/
def ChargeType.lowerValue : ChargeType → String
  | .DC => "dc"
  | .AC => "ac"
  | .UNKNOWN => "unknown"

/-- The two instance fields of `VehicleClient` that the estimator writes
(`self.charging_power_in_kilowatts`, `self.charge_type`). -/
structure ClientState where
  charging_power_in_kilowatts : ℚ
  charge_type : ChargeType
deriving DecidableEq, Repr

/-- `VehicleClient.__init__` lines 34-35: power 0, type UNKNOWN. -/
def initState : ClientState :=
  ⟨0, ChargeType.UNKNOWN⟩

/-- The vehicle-snapshot attributes read by
`get_estimated_charging_power`. -/
structure VehicleData where
  ev_battery_is_charging : Bool
  ev_battery_percentage : ℚ
  ev_charge_limits_ac : ℚ
  ev_charge_limits_dc : ℚ
  /-- estimated minutes to full as reported by the car -/
  ev_estimated_current_charge_duration : ℚ
deriving DecidableEq, Repr

/-- The DC taper cascade of `get_estimated_charging_power`
(lines 152-165): fixed power ceiling per battery-percentage band. -/
def taperDC (pct power : ℚ) : ℚ :=
  if 95 < pct then min 5 power
  else if 90 < pct then min 10 power
  else if 80 < pct then min 20 power
  else if 75 < pct then min 35 power
  else if 55 < pct then min 55 power
  else if 40 < pct then min 70 power
  else if 27 < pct then min 77 power
  else power

/-- The condition of line 139-140 that routes a run into the DC branch:
charging, initial linear estimate above 8 kW, and AC limit more than 15
percentage points away. -/
def dcBranch (v : VehicleData) : Prop :=
  v.ev_battery_is_charging = true ∧
    8 < (70 * (100 - v.ev_battery_percentage) / 100) /
        (v.ev_estimated_current_charge_duration / 60) ∧
    15 < v.ev_charge_limits_ac - v.ev_battery_percentage

instance (v : VehicleData) : Decidable (dcBranch v) := by
  unfold dcBranch; infer_instance

/-- `VehicleClient.get_estimated_charging_power` (lines 113-171) as a
state transformer: takes the persisted fields and the vehicle snapshot,
returns the updated fields and the returned power value.

Line-147 fidelity note: the source assigns the DC-recomputed power to the
instance field `self.charging_power_in_kilowatts`, while the taper cascade
and the `return` still operate on the *local* variable holding the
original 100%-based estimate. -/
def get_estimated_charging_power (st : ClientState) (v : VehicleData) :
    ClientState × ℚ :=
  if ¬ (v.ev_battery_is_charging = true) then (st, 0)
  else
    let estimated_niro_total_kwh_needed : ℚ := 70
    let percent_remaining := 100 - v.ev_battery_percentage
    let kwh_remaining := estimated_niro_total_kwh_needed * percent_remaining / 100
    let charging_power_in_kilowatts :=
      kwh_remaining / (v.ev_estimated_current_charge_duration / 60)
    if 8 < charging_power_in_kilowatts ∧
        15 < v.ev_charge_limits_ac - v.ev_battery_percentage then
      let percent_remaining := v.ev_charge_limits_dc - v.ev_battery_percentage
      let kwh_remaining := estimated_niro_total_kwh_needed * percent_remaining / 100
      let fieldPower := kwh_remaining / (v.ev_estimated_current_charge_duration / 60)
      let clamped := taperDC v.ev_battery_percentage charging_power_in_kilowatts
      ({ charging_power_in_kilowatts := fieldPower, charge_type := ChargeType.DC },
        round1 clamped)
    else
      ({ st with charge_type := ChargeType.AC }, round1 charging_power_in_kilowatts)

/-- One day of vehicle activity as delivered by the telematics library,
with the `odometer` attribute the reconciler attaches
(`day.odometer = ...`, `VehicleClient.py` line 296). Distances are km,
energies watt-hours. -/
structure DailyStat where
  date : Date
  distance : ℚ
  total_consumed : ℚ
  engine_consumption : ℚ
  climate_consumption : ℚ
  onboard_electronics_consumption : ℚ
  battery_care_consumption : ℚ
  regenerated_energy : ℚ
  odometer : ℚ
deriving DecidableEq, Repr

/-- Ascending date comparison used by `filtered_stats.sort(key=... date)`. -/
def dateLe (a b : DailyStat) : Prop :=
  a.date.key ≤ b.date.key

instance : DecidableRel dateLe := fun a b => by
  unfold dateLe; infer_instance

instance : IsTotal DailyStat dateLe :=
  ⟨fun a b => Nat.le_total a.date.key b.date.key⟩

instance : IsTrans DailyStat dateLe :=
  ⟨fun _ _ _ h h' => Nat.le_trans h h'⟩

/-- Descending date comparison used by
`sorted(self.vehicle.daily_stats, key=... date, reverse=True)`. -/
def dateGe (a b : DailyStat) : Prop :=
  b.date.key ≤ a.date.key

instance : DecidableRel dateGe := fun a b => by
  unfold dateGe; infer_instance

instance : IsTotal DailyStat dateGe :=
  ⟨fun a b => Nat.le_total b.date.key a.date.key⟩

instance : IsTrans DailyStat dateGe :=
  ⟨fun _ _ _ h h' => Nat.le_trans h' h⟩

/-- Python's stable `sorted(stats, key=date, reverse=True)`. -/
def sortDescByDate (l : List DailyStat) : List DailyStat :=
  List.insertionSort dateGe l

/-- Python's stable `list.sort(key=date)`. -/
def sortAscByDate (l : List DailyStat) : List DailyStat :=
  List.insertionSort dateLe l

/-- The backward odometer-assignment loop of
`process_and_upload_daily_stats` (lines 294-297): the head of the
(descending-sorted) list receives the running odometer, which then
decreases by that day's distance. -/
def assignOdometers : List DailyStat → ℚ → List DailyStat
  | [], _ => []
  | day :: rest, odo =>
      { day with odometer := odo } :: assignOdometers rest (odo - day.distance)

/-- The latest Spritmonitor entry (`latest_date`, `latest_odometer`)
fetched at the start of a pass. -/
structure Checkpoint where
  date : Date
  odometer : ℚ
deriving DecidableEq, Repr

/-- The reconciliation part of `process_and_upload_daily_stats`
(lines 286-313): sort descending, assign odometers, early-return when the
checkpoint is newer than or equal to yesterday, filter to
`checkpoint < date < today`, sort ascending. A failed checkpoint lookup
is modelled by `ck = none` (the code falls back to `latest_date = None`). -/
def reconcile (stats : List DailyStat) (currentOdometer : ℚ) (today : Date)
    (ck : Option Checkpoint) : List DailyStat :=
  let sorted_daily_stats := sortDescByDate stats
  if sorted_daily_stats.isEmpty then []
  else
    let withOdo := assignOdometers sorted_daily_stats currentOdometer
    match ck with
    | some c =>
        if (today.prevDay).key ≤ c.date.key then []
        else
          sortAscByDate (withOdo.filter (fun day =>
            decide (c.date.key < day.date.key ∧ day.date.key < today.key)))
    | none =>
        sortAscByDate (withOdo.filter (fun day =>
          decide (day.date.key < today.key)))

/-- The `consumption_data` dictionary assembled by
`send_consumption_to_spritmonitor` (lines 403-423). The date string, the
free-text `note`, and the trip-detail enrichment of `bc_speed`/`note`
(lines 424-460) are not the subject of any verified property and are
omitted; `bc_speed` keeps its initial value 0. -/
structure UploadRecord where
  date : Date
  odometer : ℤ
  trip : ℚ
  quantity : ℚ
  fuelsortid : ℤ
  quantityunitid : ℤ
  country : String
  stationname : String
  charging_power : ℚ
  charging_duration : ℚ
  charge_info : String
  percent : ℚ
  entry_type : String
  bc_consumption : ℚ
  bc_quantity : ℚ
  bc_speed : ℚ
  price : ℚ
  currencyid : ℤ
  pricetype : ℤ
deriving DecidableEq, Repr

/-- Record construction of `send_consumption_to_spritmonitor`
(lines 403-423), reading the estimator's persisted fields and the vehicle
snapshot from the instance. `entry_type` models the `"type"` key. -/
def send_consumption_record (st : ClientState) (v : VehicleData)
    (electricity_price : ℚ) (currency_id : ℤ) (day_stats : DailyStat) :
    UploadRecord :=
  { date := day_stats.date
    odometer := truncQ day_stats.odometer
    trip := round1 day_stats.distance
    quantity := round1 (day_stats.total_consumed / 1000)
    fuelsortid := 5
    quantityunitid := 5
    country := "HU"
    stationname := "home"
    charging_power := st.charging_power_in_kilowatts
    charging_duration := 0
    charge_info := st.charge_type.lowerValue ++ ",source_vehicle"
    percent := v.ev_battery_percentage
    entry_type := "full"
    bc_consumption :=
      if 0 < day_stats.total_consumed then
        round1 (day_stats.distance / (day_stats.total_consumed / 1000))
      else 0
    bc_quantity := round1 (day_stats.total_consumed / 1000)
    bc_speed := 0
    price := electricity_price
    currencyid := currency_id
    pricetype := 1 }

/-- The records a full pass submits: one per reconciler-selected day, all
built from the same instance state (`process_and_upload_daily_stats`
lines 315-329 with every external call succeeding). -/
def passUploads (st : ClientState) (v : VehicleData)
    (electricity_price : ℚ) (currency_id : ℤ) (stats : List DailyStat)
    (currentOdometer : ℚ) (today : Date) (ck : Option Checkpoint) :
    List UploadRecord :=
  (reconcile stats currentOdometer today ck).map
    (send_consumption_record st v electricity_price currency_id)

/-- The `request_data` dictionary of
`SpritMonitorClient.upload_consumption_data` (lines 173-201), built from
an incoming record. `charging_power`/`charging_duration` are transmitted
only when positive (modelled with `Option`). -/
structure RequestData where
  date : Date
  odometer : ℤ
  trip : ℚ
  quantity : ℚ
  entry_type : String
  price : ℚ
  currencyid : ℤ
  pricetype : ℤ
  fuelsortid : String
  quantityunitid : ℤ
  charge_info : String
  percent : ℚ
  bc_consumption : ℚ
  bc_quantity : ℚ
  bc_speed : ℚ
  charging_power : Option ℚ
  charging_duration : Option ℚ
deriving DecidableEq, Repr

/-- `upload_consumption_data`'s translation of a record into the
transmitted request: `fuelsortid` is hard-coded to the string `"19"` and
`",source_vehicle"` is appended to the incoming `charge_info`. -/
def upload_consumption_data (data : UploadRecord) : RequestData :=
  { date := data.date
    odometer := data.odometer
    trip := data.trip
    quantity := data.quantity
    entry_type := data.entry_type
    price := data.price
    currencyid := data.currencyid
    pricetype := data.pricetype
    fuelsortid := "19"
    quantityunitid := data.quantityunitid
    charge_info := data.charge_info ++ ",source_vehicle"
    percent := data.percent
    bc_consumption := data.bc_consumption
    bc_quantity := data.bc_quantity
    bc_speed := data.bc_speed
    charging_power :=
      if 0 < data.charging_power then some data.charging_power else none
    charging_duration :=
      if 0 < data.charging_duration then some data.charging_duration else none }

/-- Observable external calls made by the upload loop. -/
inductive SeqEvent where
  | monthHyd : Nat → SeqEvent
  | dayHyd : Date → SeqEvent
  | uploadDay : Date → SeqEvent
deriving DecidableEq, Repr

/-- How a pass of the upload loop ends: all days processed, the loop
returned after a failed day-level hydration (`handle_api_exception` +
`return`, lines 325-327), or an upload exception re-raised out of
`send_consumption_to_spritmonitor` (line 472). -/
inductive SeqOutcome where
  | completed
  | abortedOnDayHyd
  | raisedOnUpload
deriving DecidableEq, Repr

/-- The per-day loop of `process_and_upload_daily_stats` (lines 315-329)
over the reconciler's ascending output, with `cur` the `current_month`
token. `mOk`, `dOk`, `uOk` tell whether the month hydration, day
hydration, and upload of a given month/day succeed. A month-hydration
failure is caught inside `update_trip_info_for_month` (lines 333-344) and
does not influence the trace or the control flow, which is why `mOk` is
never consulted; the call itself is still recorded as an event. -/
def runSequencer : List DailyStat → Option Nat → (Nat → Bool) →
    (Date → Bool) → (Date → Bool) → List SeqEvent × SeqOutcome
  | [], _, _, _, _ => ([], SeqOutcome.completed)
  | day :: rest, cur, mOk, dOk, uOk =>
      let month := day.date.monthToken
      let mEvts :=
        if some month ≠ cur then [SeqEvent.monthHyd month] else []
      if dOk day.date then
        if uOk day.date then
          let next := runSequencer rest (some month) mOk dOk uOk
          (mEvts ++ SeqEvent.dayHyd day.date ::
            SeqEvent.uploadDay day.date :: next.1, next.2)
        else
          (mEvts ++ [SeqEvent.dayHyd day.date, SeqEvent.uploadDay day.date],
            SeqOutcome.raisedOnUpload)
      else
        (mEvts ++ [SeqEvent.dayHyd day.date], SeqOutcome.abortedOnDayHyd)

/-- The month-hydration calls of a trace, in order. -/
def monthEvents (tr : List SeqEvent) : List Nat :=
  tr.filterMap (fun e =>
    match e with
    | SeqEvent.monthHyd m => some m
    | _ => none)

/-- `monthFirst hyd tr` holds when every day-hydration call in `tr` is
preceded by a month hydration of that day's month (`hyd` lists the months
hydrated before `tr` starts). -/
def monthFirst (hyd : List Nat) : List SeqEvent → Bool
  | [] => true
  | SeqEvent.monthHyd m :: tr => monthFirst (m :: hyd) tr
  | SeqEvent.dayHyd d :: tr => hyd.contains d.monthToken && monthFirst hyd tr
  | SeqEvent.uploadDay _ :: tr => monthFirst hyd tr

/-- A daily stat with the given date, distance (km) and consumption (Wh);
the remaining energy fields are zero and the odometer starts at 0. -/
def mkDay (d : Date) (dist cons : ℚ) : DailyStat :=
  ⟨d, dist, cons, 0, 0, 0, 0, 0, 0⟩

/-- Concrete day: 2024-05-10, 10 km, 5000 Wh. -/
def dayMay10 : DailyStat := mkDay ⟨2024, 5, 10⟩ 10 5000

/-- Concrete day: 2024-05-11, 20 km, 8000 Wh. -/
def dayMay11 : DailyStat := mkDay ⟨2024, 5, 11⟩ 20 8000

/-- Concrete day: 2024-06-01, 5 km, 2500 Wh. -/
def dayJun01 : DailyStat := mkDay ⟨2024, 6, 1⟩ 5 2500

/-- Concrete day with zero consumption: 2024-05-09, 3 km, 0 Wh. -/
def dayZero : DailyStat := mkDay ⟨2024, 5, 9⟩ 3 0

/-- Snapshot that takes the DC branch: charging, 50%, AC limit 80,
DC limit 80, 60 minutes to full (linear estimate 35 kW). -/
def vSnapDC : VehicleData := ⟨true, 50, 80, 80, 60⟩

/-- Snapshot classified AC: charging, 50%, 350 minutes to full
(linear estimate 6 kW, below the 8 kW threshold). -/
def vSnapAC : VehicleData := ⟨true, 50, 80, 100, 350⟩

/-- Snapshot with the charging flag off. -/
def vSnapOff : VehicleData := ⟨false, 50, 80, 100, 350⟩

/-- Client state after a DC-classified estimator run persisted 21 kW. -/
def stAfterDC : ClientState := ⟨21, ChargeType.DC⟩

/-- Sum of the distances of the input days strictly more recent than the
date key `k`. -/
def moreRecentSum (stats : List DailyStat) (k : Nat) : ℚ :=
  ((stats.filter (fun y => decide (k < y.date.key))).map
    (fun y => y.distance)).sum

/-- The backfill-window predicate of the claimed reconciler contract:
`checkpoint_date < d < today`, or `d < today` when no checkpoint exists. -/
def inWindow (ck : Option Checkpoint) (today d : Date) : Bool :=
  (match ck with
   | some c => decide (c.date.key < d.key)
   | none => true) && decide (d.key < today.key)

/-!  Theorems  -/

/-- C8: for every daily stat, the built record's `bc_consumption` is 0
when `total_consumed` is 0 (the guard short-circuits the division), and
otherwise equals the distance divided by the consumed energy in kWh,
rounded to 1 decimal. -/
theorem bc_consumption_guarded (st : ClientState) (v : VehicleData)
    (price : ℚ) (cur : ℤ) (day : DailyStat) :
    (day.total_consumed = 0 →
      (send_consumption_record st v price cur day).bc_consumption = 0) ∧
    (0 < day.total_consumed →
      (send_consumption_record st v price cur day).bc_consumption =
        round1 (day.distance / (day.total_consumed / 1000))) := by
  refine ⟨fun h => ?_, fun h => ?_⟩
  · simp [send_consumption_record, h]
  · simp only [send_consumption_record]
    rw [if_pos h]

/-- C8 witness at the concrete days `dayZero` (0 Wh) and `dayMay10`
(5000 Wh). -/
theorem bc_consumption_guarded_w :
    (send_consumption_record initState vSnapOff 41 11 dayZero).bc_consumption = 0 ∧
    (send_consumption_record initState vSnapOff 41 11 dayMay10).bc_consumption =
      round1 (dayMay10.distance / (dayMay10.total_consumed / 1000)) :=
  ⟨(bc_consumption_guarded initState vSnapOff 41 11 dayZero).1 rfl,
   (bc_consumption_guarded initState vSnapOff 41 11 dayMay10).2
     (by norm_num [dayMay10, mkDay])⟩

/-- C10: the transmitted request hard-codes `fuelsortid` to the string
`"19"`, overriding the record's value 5, and appends `",source_vehicle"`
to the record's `charge_info`, which the record builder has already
suffixed with `",source_vehicle"`, so the suffix is transmitted twice. -/
theorem transmitted_request_overrides (st : ClientState) (v : VehicleData)
    (price : ℚ) (cur : ℤ) (day : DailyStat) :
    (upload_consumption_data
        (send_consumption_record st v price cur day)).fuelsortid = "19" ∧
    (send_consumption_record st v price cur day).fuelsortid = 5 ∧
    (upload_consumption_data
        (send_consumption_record st v price cur day)).charge_info =
      st.charge_type.lowerValue ++ ",source_vehicle,source_vehicle" := by
  refine ⟨rfl, rfl, ?_⟩
  cases h : st.charge_type <;>
    simp [upload_consumption_data, send_consumption_record, h,
      ChargeType.lowerValue]

/-- C6 counterexample: after an AC-classified run, a run with the
charging flag off returns power 0 but the charge-type field remains AC,
not UNKNOWN. -/
theorem not_charging_type_stale :
    (get_estimated_charging_power
        (get_estimated_charging_power initState vSnapAC).1 vSnapOff).2 = 0 ∧
    (get_estimated_charging_power
        (get_estimated_charging_power initState vSnapAC).1 vSnapOff).1.charge_type
      = ChargeType.AC ∧
    ChargeType.AC ≠ ChargeType.UNKNOWN := by
  have h1 : (get_estimated_charging_power initState vSnapAC).1 =
      ⟨0, ChargeType.AC⟩ := by
    norm_num [get_estimated_charging_power, vSnapAC, initState]
  rw [h1]
  refine ⟨rfl, rfl, by simp⟩

/-- C6 amended: a run with the charging flag off returns power 0 and
leaves the instance state, including the charge-type field, unchanged
(so the observed type is UNKNOWN only if no earlier run classified a
session). -/
theorem not_charging_returns_zero (st : ClientState) (v : VehicleData)
    (h : v.ev_battery_is_charging = false) :
    get_estimated_charging_power st v = (st, 0) := by
  simp [get_estimated_charging_power, h]

/-- C6 amended witness at the concrete not-charging snapshot. -/
theorem not_charging_returns_zero_w :
    vSnapOff.ev_battery_is_charging = false ∧
    get_estimated_charging_power stAfterDC vSnapOff = (stAfterDC, 0) :=
  ⟨rfl, not_charging_returns_zero stAfterDC vSnapOff rfl⟩

/-- C9: every run that does not take the DC branch — every run with the
charging flag off and every run classified AC — leaves the persisted
`charging_power_in_kilowatts` field unchanged, while a charging run still
sets the charge-type field to AC. -/
theorem charging_power_field_frame (st : ClientState) (v : VehicleData)
    (h : ¬ dcBranch v) :
    ((get_estimated_charging_power st v).1).charging_power_in_kilowatts =
      st.charging_power_in_kilowatts ∧
    (v.ev_battery_is_charging = true →
      ((get_estimated_charging_power st v).1).charge_type = ChargeType.AC) := by
  by_cases hc : v.ev_battery_is_charging = true
  · have hcond : ¬ (8 < (70 * (100 - v.ev_battery_percentage) / 100) /
        (v.ev_estimated_current_charge_duration / 60) ∧
        15 < v.ev_charge_limits_ac - v.ev_battery_percentage) :=
      fun hx => h ⟨hc, hx.1, hx.2⟩
    simp only [get_estimated_charging_power, hc]
    rw [if_neg (by simp), if_neg hcond]
    exact ⟨rfl, fun _ => rfl⟩
  · have hc' : v.ev_battery_is_charging = false := by
      simpa using hc
    simp [get_estimated_charging_power, hc']

/-- C9 witness at an AC-classified snapshot starting from a state holding
21 kW. -/
theorem charging_power_field_frame_w :
    ¬ dcBranch vSnapAC ∧
    ((get_estimated_charging_power stAfterDC vSnapAC).1).charging_power_in_kilowatts
      = 21 := by
  have h : ¬ dcBranch vSnapAC := by norm_num [dcBranch, vSnapAC]
  exact ⟨h, (charging_power_field_frame stAfterDC vSnapAC h).1⟩

/-- C2, evaluated at the failing input `vSnapDC` (charging, 50%, AC limit
80, DC limit 80, 60 minutes to full): the session is classified DC, but
the returned power is 35.0 — the taper cascade clamps the *original*
100%-based estimate (35 kW) — while the DC-recomputed estimate 21 kW is
stored unclamped in the instance field. The claim requires the produced
power to be the recomputed estimate tapered and rounded, i.e. 21.0. -/
theorem dc_power_divergence :
    (get_estimated_charging_power initState vSnapDC).2 = 35 ∧
    ((get_estimated_charging_power initState vSnapDC).1).charging_power_in_kilowatts
      = 21 ∧
    ((get_estimated_charging_power initState vSnapDC).1).charge_type
      = ChargeType.DC ∧
    round1 (taperDC 50 ((70 * ((80 : ℚ) - 50) / 100) / ((60 : ℚ) / 60))) = 21 ∧
    (35 : ℚ) ≠ 21 := by
  norm_num [get_estimated_charging_power, vSnapDC, initState, taperDC,
    round1, roundHalfEven]

/-- C1 counterexample: with two selected days in the same month, a
failing day-level hydration of the first day makes the loop return at
once — the second day is never hydrated nor uploaded, contradicting
"processing continues with the remaining days of the same pass". -/
theorem day_hydration_failure_skips_rest :
    runSequencer [dayMay10, dayMay11] none (fun _ => true)
        (fun d => decide (d ≠ dayMay10.date)) (fun _ => true) =
      ([SeqEvent.monthHyd 202405, SeqEvent.dayHyd dayMay10.date],
        SeqOutcome.abortedOnDayHyd) ∧
    SeqEvent.dayHyd dayMay11.date ∉
      (runSequencer [dayMay10, dayMay11] none (fun _ => true)
        (fun d => decide (d ≠ dayMay10.date)) (fun _ => true)).1 := by
  decide

/-- C1 amended: a failed *month*-level hydration is caught inside
`update_trip_info_for_month` and never affects the pass (the trace and
outcome are independent of the month oracle), but a failed day-level
hydration makes the loop return and a failed upload re-raises: in both
cases the pass behaves as if the remaining days were absent. -/
theorem sequencer_failure_semantics (days : List DailyStat)
    (cur : Option Nat) (mOk mOk' : Nat → Bool) (dOk uOk : Date → Bool)
    (d : DailyStat) (rest : List DailyStat) :
    runSequencer days cur mOk dOk uOk = runSequencer days cur mOk' dOk uOk ∧
    (dOk d.date = false →
      runSequencer (d :: rest) cur mOk dOk uOk =
        runSequencer [d] cur mOk dOk uOk) ∧
    (dOk d.date = true → uOk d.date = false →
      runSequencer (d :: rest) cur mOk dOk uOk =
        runSequencer [d] cur mOk dOk uOk) := by
  refine ⟨?_, ?_, ?_⟩
  · induction days generalizing cur with
    | nil => rfl
    | cons a l ih =>
        simp only [runSequencer]
        rw [ih]
  · intro h
    simp [runSequencer, h]
  · intro h h'
    simp [runSequencer, h, h']

/-- C1 amended witness: a concrete pass whose day hydration always fails
processes exactly as if only the first day existed. -/
theorem sequencer_failure_semantics_w :
    runSequencer [dayMay10, dayMay11] none (fun _ => true) (fun _ => false)
        (fun _ => true) =
      runSequencer [dayMay10] none (fun _ => true) (fun _ => false)
        (fun _ => true) :=
  (sequencer_failure_semantics [dayMay10, dayMay11] none (fun _ => true)
    (fun _ => true) (fun _ => false) (fun _ => true) dayMay10 [dayMay11]).2.1
    rfl

theorem daysInMonth_bounds (y m : Nat) :
    28 ≤ daysInMonth y m ∧ daysInMonth y m ≤ 31 := by
  unfold daysInMonth
  split_ifs <;> omega

theorem monthToken_mono {a b : Date} (ha : a.valid) (hb : b.valid)
    (h : a.key ≤ b.key) : a.monthToken ≤ b.monthToken := by
  obtain ⟨_, ham1, ham2, had1, had2⟩ := ha
  obtain ⟨_, hbm1, hbm2, hbd1, hbd2⟩ := hb
  have h1 := daysInMonth_bounds a.year a.month
  have h2 := daysInMonth_bounds b.year b.month
  unfold Date.key Date.monthToken at *
  omega

@[simp]
theorem monthEvents_nil : monthEvents [] = [] := rfl

@[simp]
theorem monthEvents_cons_month (m : Nat) (tr : List SeqEvent) :
    monthEvents (SeqEvent.monthHyd m :: tr) = m :: monthEvents tr := rfl

@[simp]
theorem monthEvents_cons_day (d : Date) (tr : List SeqEvent) :
    monthEvents (SeqEvent.dayHyd d :: tr) = monthEvents tr := rfl

@[simp]
theorem monthEvents_cons_upload (d : Date) (tr : List SeqEvent) :
    monthEvents (SeqEvent.uploadDay d :: tr) = monthEvents tr := rfl

/-- One failure-free step of the upload loop. -/
theorem runSequencer_ok_cons (a : DailyStat) (l : List DailyStat)
    (cur : Option Nat) :
    runSequencer (a :: l) cur (fun _ => true) (fun _ => true)
        (fun _ => true) =
      ((if some a.date.monthToken ≠ cur
          then [SeqEvent.monthHyd a.date.monthToken] else []) ++
        SeqEvent.dayHyd a.date :: SeqEvent.uploadDay a.date ::
          (runSequencer l (some a.date.monthToken) (fun _ => true)
            (fun _ => true) (fun _ => true)).1,
       (runSequencer l (some a.date.monthToken) (fun _ => true)
         (fun _ => true) (fun _ => true)).2) := by
  simp [runSequencer]

/-- Months hydrated by a failure-free pass, relative to a `current_month`
token known to lie below every selected day's month: exactly the months
of the selected days other than the token itself. -/
theorem seq_monthEvents_mem (days : List DailyStat) (cur : Option Nat)
    (hm : days.Pairwise (fun x y => x.date.monthToken ≤ y.date.monthToken))
    (hcur : ∀ c, cur = some c → ∀ d ∈ days, c ≤ d.date.monthToken)
    (m : Nat) :
    m ∈ monthEvents (runSequencer days cur (fun _ => true) (fun _ => true)
        (fun _ => true)).1 ↔
      (m ∈ days.map (fun d => d.date.monthToken) ∧ some m ≠ cur) := by
  induction days generalizing cur with
  | nil => simp [runSequencer]
  | cons a l ih =>
      rw [List.pairwise_cons] at hm
      have hrec : ∀ c, some a.date.monthToken = some c →
          ∀ d ∈ l, c ≤ d.date.monthToken := by
        intro c hc d hd
        cases hc
        exact hm.1 d hd
      have ihs := ih (some a.date.monthToken) hm.2 hrec
      rw [runSequencer_ok_cons]
      by_cases hq : some a.date.monthToken = cur
      · rw [if_neg (by simp [hq])]
        simp only [List.nil_append, monthEvents_cons_day,
          monthEvents_cons_upload, ihs, List.map_cons, List.mem_cons]
        constructor
        · rintro ⟨hml, hne⟩
          refine ⟨Or.inr hml, ?_⟩
          rw [← hq]
          simpa using hne
        · rintro ⟨hml | hml, hne⟩
          · rw [hml] at hne
            exact absurd hq hne
          · refine ⟨hml, ?_⟩
            rw [← hq] at hne
            simpa using hne
      · rw [if_pos hq]
        simp only [List.cons_append, List.nil_append, monthEvents_cons_month,
          monthEvents_cons_day, monthEvents_cons_upload, List.mem_cons, ihs,
          List.map_cons]
        constructor
        · rintro (rfl | ⟨hml, hne⟩)
          · exact ⟨Or.inl rfl, hq⟩
          · refine ⟨Or.inr hml, ?_⟩
            intro hcm
            rcases List.mem_map.mp hml with ⟨d, hd, hdm⟩
            have h1 : a.date.monthToken ≤ d.date.monthToken := hm.1 d hd
            have h2 : m ≤ a.date.monthToken :=
              hcur m hcm.symm a (List.mem_cons_self a l)
            have hma : m = a.date.monthToken := by omega
            exact hne (by rw [hma])
        · rintro ⟨hml | hml, hne⟩
          · exact Or.inl hml
          · by_cases hma : m = a.date.monthToken
            · exact Or.inl hma
            · exact Or.inr ⟨hml, by simpa using hma⟩

/-- The months hydrated by a failure-free pass over month-sorted days are
strictly increasing. -/
theorem seq_monthEvents_sorted (days : List DailyStat) (cur : Option Nat)
    (hm : days.Pairwise (fun x y => x.date.monthToken ≤ y.date.monthToken))
    (hcur : ∀ c, cur = some c → ∀ d ∈ days, c ≤ d.date.monthToken) :
    (monthEvents (runSequencer days cur (fun _ => true) (fun _ => true)
        (fun _ => true)).1).Pairwise (· < ·) := by
  induction days generalizing cur with
  | nil => simp [runSequencer]
  | cons a l ih =>
      rw [List.pairwise_cons] at hm
      have hrec : ∀ c, some a.date.monthToken = some c →
          ∀ d ∈ l, c ≤ d.date.monthToken := by
        intro c hc d hd
        cases hc
        exact hm.1 d hd
      have ihs := ih (some a.date.monthToken) hm.2 hrec
      rw [runSequencer_ok_cons]
      by_cases hq : some a.date.monthToken = cur
      · rw [if_neg (by simp [hq])]
        simpa using ihs
      · rw [if_pos hq]
        simp only [List.cons_append, List.nil_append, monthEvents_cons_month,
          monthEvents_cons_day, monthEvents_cons_upload]
        refine List.Pairwise.cons ?_ ihs
        intro m hmem
        have := (seq_monthEvents_mem l (some a.date.monthToken) hm.2 hrec m).mp
          hmem
        rcases this with ⟨hml, hne⟩
        rcases List.mem_map.mp hml with ⟨d, hd, hdm⟩
        have h1 : a.date.monthToken ≤ d.date.monthToken := hm.1 d hd
        have h2 : m ≠ a.date.monthToken := by simpa using hne
        omega

/-- In a failure-free pass, every day-level hydration is preceded by a
month-level hydration of that day's month (or the month was already the
current token, recorded in `hyd`). -/
theorem seq_monthFirst (days : List DailyStat) (cur : Option Nat)
    (hyd : List Nat)
    (hcur : ∀ c, cur = some c → hyd.contains c = true) :
    monthFirst hyd (runSequencer days cur (fun _ => true) (fun _ => true)
        (fun _ => true)).1 = true := by
  induction days generalizing cur hyd with
  | nil => simp [runSequencer, monthFirst]
  | cons a l ih =>
      rw [runSequencer_ok_cons]
      by_cases hq : some a.date.monthToken = cur
      · rw [if_neg (by simp [hq])]
        simp only [List.nil_append, monthFirst]
        rw [Bool.and_eq_true]
        refine ⟨hcur a.date.monthToken hq.symm, ?_⟩
        exact ih (some a.date.monthToken) hyd
          (fun c hc => by cases hc; exact hcur _ hq.symm)
      · rw [if_pos hq]
        simp only [List.cons_append, List.nil_append, monthFirst]
        rw [Bool.and_eq_true]
        refine ⟨by simp [List.contains], ?_⟩
        exact ih (some a.date.monthToken) (a.date.monthToken :: hyd)
          (fun c hc => by cases hc; simp [List.contains])

/-- C7: over a backfill set sorted ascending by date with valid dates,
the failure-free pass hydrates months in strictly increasing
(chronological) order, hydrates exactly the distinct months of the
selected days (so k distinct months yield k month-hydration calls), and
hydrates each month before the first day-level hydration of any day of
that month. -/
theorem month_hydration_per_month (days : List DailyStat)
    (hv : ∀ d ∈ days, d.date.valid) (hs : List.Pairwise dateLe days) :
    (monthEvents (runSequencer days none (fun _ => true) (fun _ => true)
        (fun _ => true)).1).Pairwise (· < ·) ∧
    (∀ m, m ∈ monthEvents (runSequencer days none (fun _ => true)
        (fun _ => true) (fun _ => true)).1 ↔
      m ∈ days.map (fun d => d.date.monthToken)) ∧
    (monthEvents (runSequencer days none (fun _ => true) (fun _ => true)
        (fun _ => true)).1).length =
      (days.map (fun d => d.date.monthToken)).dedup.length ∧
    monthFirst [] (runSequencer days none (fun _ => true) (fun _ => true)
        (fun _ => true)).1 = true := by
  have hm : days.Pairwise
      (fun x y => x.date.monthToken ≤ y.date.monthToken) :=
    List.Pairwise.imp_of_mem
      (fun ha hb hr => monthToken_mono (hv _ ha) (hv _ hb) hr) hs
  have hcur : ∀ c, (none : Option Nat) = some c →
      ∀ d ∈ days, c ≤ d.date.monthToken := by
    intro c hc
    cases hc
  have hmem := fun m => seq_monthEvents_mem days none hm hcur m
  have hsorted := seq_monthEvents_sorted days none hm hcur
  have hmem' : ∀ m, m ∈ monthEvents (runSequencer days none (fun _ => true)
      (fun _ => true) (fun _ => true)).1 ↔
      m ∈ days.map (fun d => d.date.monthToken) := by
    intro m
    rw [hmem m]
    simp
  refine ⟨hsorted, hmem', ?_, seq_monthFirst days none [] (by intro c hc; cases hc)⟩
  have hnd : (monthEvents (runSequencer days none (fun _ => true)
      (fun _ => true) (fun _ => true)).1).Nodup :=
    hsorted.imp (fun h => Nat.ne_of_lt h)
  have hfs : (monthEvents (runSequencer days none (fun _ => true)
      (fun _ => true) (fun _ => true)).1).toFinset =
      (days.map (fun d => d.date.monthToken)).toFinset := by
    ext m
    simp only [List.mem_toFinset]
    exact hmem' m
  calc (monthEvents (runSequencer days none (fun _ => true) (fun _ => true)
      (fun _ => true)).1).length
      = (monthEvents (runSequencer days none (fun _ => true) (fun _ => true)
          (fun _ => true)).1).toFinset.card :=
        (List.toFinset_card_of_nodup hnd).symm
    _ = (days.map (fun d => d.date.monthToken)).toFinset.card := by rw [hfs]
    _ = (days.map (fun d => d.date.monthToken)).dedup.length :=
        List.card_toFinset _

/-- C7 witness: three valid, date-sorted days spanning May and June 2024
trigger exactly two month hydrations. -/
theorem month_hydration_per_month_w :
    (∀ d ∈ [dayMay10, dayMay11, dayJun01], d.date.valid) ∧
    List.Pairwise dateLe [dayMay10, dayMay11, dayJun01] ∧
    (monthEvents (runSequencer [dayMay10, dayMay11, dayJun01] none
        (fun _ => true) (fun _ => true) (fun _ => true)).1).length = 2 := by
  have hv : ∀ d ∈ [dayMay10, dayMay11, dayJun01], d.date.valid := by decide
  have hs : List.Pairwise dateLe [dayMay10, dayMay11, dayJun01] := by decide
  refine ⟨hv, hs, ?_⟩
  rw [(month_hydration_per_month [dayMay10, dayMay11, dayJun01] hv hs).2.2.1]
  decide

theorem assignOdometers_map_date (l : List DailyStat) (odo : ℚ) :
    (assignOdometers l odo).map (fun d => d.date) =
      l.map (fun d => d.date) := by
  induction l generalizing odo with
  | nil => rfl
  | cons a t ih => simp [assignOdometers, ih]

theorem mem_assignOdometers_date {l : List DailyStat} {odo : ℚ}
    {x : DailyStat} (hx : x ∈ assignOdometers l odo) :
    x.date ∈ l.map (fun d => d.date) := by
  have h := List.mem_map_of_mem (fun d => d.date) hx
  rwa [assignOdometers_map_date] at h

theorem sortDescByDate_strict (stats : List DailyStat)
    (hnd : stats.Pairwise (fun a b => a.date.key ≠ b.date.key)) :
    (sortDescByDate stats).Pairwise
      (fun a b => b.date.key < a.date.key) := by
  have hsorted : List.Sorted dateGe (sortDescByDate stats) :=
    List.sorted_insertionSort dateGe stats
  have hperm : (sortDescByDate stats).Perm stats :=
    List.perm_insertionSort dateGe stats
  have hnd' : (sortDescByDate stats).Pairwise
      (fun a b => a.date.key ≠ b.date.key) :=
    (hperm.pairwise_iff (fun h => h.symm)).mpr hnd
  have hand := List.Pairwise.and hsorted hnd'
  exact hand.imp (fun h => lt_of_le_of_ne h.1 h.2.symm)

theorem assignOdometers_formula (l : List DailyStat) (odo : ℚ)
    (hd : l.Pairwise (fun a b => b.date.key < a.date.key)) :
    ∀ x ∈ assignOdometers l odo,
      x.odometer = odo - moreRecentSum l x.date.key := by
  induction l generalizing odo with
  | nil => intro x hx; simp [assignOdometers] at hx
  | cons a t ih =>
      rw [List.pairwise_cons] at hd
      intro x hx
      rw [assignOdometers] at hx
      rcases List.mem_cons.mp hx with rfl | hx'
      · have hfilter : (a :: t).filter
            (fun y => decide (a.date.key < y.date.key)) = [] := by
          rw [List.filter_eq_nil_iff]
          intro y hy
          rcases List.mem_cons.mp hy with rfl | hy'
          · simp
          · have := hd.1 y hy'
            simp only [decide_eq_true_eq]
            omega
        simp [moreRecentSum, hfilter]
      · have hxd : x.date.key < a.date.key := by
          have hmem := mem_assignOdometers_date hx'
          rcases List.mem_map.mp hmem with ⟨y, hy, hyx⟩
          rw [← hyx]
          exact hd.1 y hy
        have ihx := ih (odo - a.distance) hd.2 x hx'
        rw [ihx]
        have hsum : moreRecentSum (a :: t) x.date.key =
            a.distance + moreRecentSum t x.date.key := by
          unfold moreRecentSum
          rw [List.filter_cons_of_pos (by simpa using hxd)]
          simp
        rw [hsum]
        ring

theorem sum_filter_distance_mono (l : List DailyStat)
    (p q : DailyStat → Bool) (hpq : ∀ a, p a = true → q a = true)
    (h0 : ∀ a ∈ l, 0 ≤ a.distance) :
    ((l.filter p).map (fun y => y.distance)).sum ≤
      ((l.filter q).map (fun y => y.distance)).sum := by
  induction l with
  | nil => simp
  | cons a t ih =>
      have h0t : ∀ x ∈ t, 0 ≤ x.distance :=
        fun x hx => h0 x (List.mem_cons_of_mem a hx)
      have h0a : 0 ≤ a.distance := h0 a (List.mem_cons_self a t)
      by_cases hp : p a = true
      · rw [List.filter_cons_of_pos hp, List.filter_cons_of_pos (hpq a hp)]
        simp only [List.map_cons, List.sum_cons]
        exact add_le_add_left (ih h0t) _
      · rw [List.filter_cons_of_neg (by simpa using hp)]
        by_cases hq : q a = true
        · rw [List.filter_cons_of_pos hq]
          simp only [List.map_cons, List.sum_cons]
          calc ((t.filter p).map (fun y => y.distance)).sum
              ≤ ((t.filter q).map (fun y => y.distance)).sum := ih h0t
            _ ≤ a.distance + ((t.filter q).map (fun y => y.distance)).sum :=
                le_add_of_nonneg_left h0a
        · rw [List.filter_cons_of_neg (by simpa using hq)]
          exact ih h0t

theorem moreRecentSum_perm {l1 l2 : List DailyStat} (h : l1.Perm l2)
    (k : Nat) : moreRecentSum l1 k = moreRecentSum l2 k :=
  ((h.filter _).map _).sum_eq

/-- C3: with pairwise-distinct dates (one stat per calendar day, as the
data model guarantees) and non-negative distances, every day of the
odometer-assignment pass receives `current_odometer` minus the sum of the
distances of all strictly more recent input days, and consequently the
assigned odometers are monotone non-decreasing with date. -/
theorem reconciler_odometer (stats : List DailyStat) (odo : ℚ)
    (hnd : stats.Pairwise (fun a b => a.date.key ≠ b.date.key))
    (h0 : ∀ d ∈ stats, 0 ≤ d.distance) :
    (∀ x ∈ assignOdometers (sortDescByDate stats) odo,
      x.odometer = odo - moreRecentSum stats x.date.key) ∧
    (∀ x ∈ assignOdometers (sortDescByDate stats) odo,
      ∀ y ∈ assignOdometers (sortDescByDate stats) odo,
        x.date.key ≤ y.date.key → x.odometer ≤ y.odometer) := by
  have hstrict := sortDescByDate_strict stats hnd
  have hperm : (sortDescByDate stats).Perm stats :=
    List.perm_insertionSort dateGe stats
  have hform : ∀ x ∈ assignOdometers (sortDescByDate stats) odo,
      x.odometer = odo - moreRecentSum stats x.date.key := by
    intro x hx
    rw [assignOdometers_formula (sortDescByDate stats) odo hstrict x hx]
    rw [moreRecentSum_perm hperm]
  refine ⟨hform, ?_⟩
  intro x hx y hy hxy
  rw [hform x hx, hform y hy]
  have hmono : moreRecentSum stats y.date.key ≤
      moreRecentSum stats x.date.key := by
    unfold moreRecentSum
    apply sum_filter_distance_mono
    · intro a ha
      simp only [decide_eq_true_eq] at ha ⊢
      omega
    · exact h0
  linarith

/-- C3 witness: two concrete days, checked on the most recent one. -/
theorem reconciler_odometer_w :
    ({ dayMay11 with odometer := (1000 : ℚ) }).odometer =
      1000 - moreRecentSum [dayMay10, dayMay11]
        ({ dayMay11 with odometer := (1000 : ℚ) }).date.key := by
  have hsort : sortDescByDate [dayMay10, dayMay11] = [dayMay11, dayMay10] := by
    simp [sortDescByDate, dateGe, dayMay10, dayMay11, mkDay, Date.key,
      List.insertionSort, List.orderedInsert]
  have hmem : { dayMay11 with odometer := (1000 : ℚ) } ∈
      assignOdometers (sortDescByDate [dayMay10, dayMay11]) 1000 := by
    rw [hsort, assignOdometers]
    exact List.mem_cons_self _ _
  exact (reconciler_odometer [dayMay10, dayMay11] 1000 (by decide)
    (by norm_num [dayMay10, dayMay11, mkDay])).1 _ hmem

theorem prevDay_key_lt {t : Date} (ht : t.valid) : t.prevDay.key < t.key := by
  obtain ⟨hty, htm1, htm2, htd1, htd2⟩ := ht
  have hb1 := daysInMonth_bounds t.year (t.month - 1)
  have hb2 := daysInMonth_bounds t.year t.month
  unfold Date.prevDay
  split_ifs with h1 h2 <;> simp only [Date.key] <;> omega

theorem key_le_prevDay_key {d t : Date} (hd : d.valid) (ht : t.valid)
    (h : d.key < t.key) : d.key ≤ t.prevDay.key := by
  obtain ⟨hdy, hdm1, hdm2, hdd1, hdd2⟩ := hd
  obtain ⟨hty, htm1, htm2, htd1, htd2⟩ := ht
  have hbd := daysInMonth_bounds d.year d.month
  have hbt := daysInMonth_bounds t.year t.month
  unfold Date.prevDay
  split_ifs with h1 h2
  · simp only [Date.key] at h ⊢
    omega
  · have hbp := daysInMonth_bounds t.year (t.month - 1)
    by_cases he : d.year = t.year ∧ d.month = t.month - 1
    · obtain ⟨he1, he2⟩ := he
      simp only [Date.key] at h ⊢
      rw [he1, he2] at hdd2
      omega
    · simp only [Date.key] at h ⊢
      omega
  · simp only [Date.key] at h ⊢
    omega

theorem inWindow_some (c : Checkpoint) (today d : Date) :
    inWindow (some c) today d =
      decide (c.date.key < d.key ∧ d.key < today.key) := by
  simp [inWindow]

theorem inWindow_none (today d : Date) :
    inWindow none today d = decide (d.key < today.key) := by
  simp [inWindow]

/-- The dates surviving the reconciler's sort-assign-filter-sort pipeline
are, up to order, the dates of the input days satisfying the same date
predicate. -/
theorem sortAsc_filter_assign_dates (stats : List DailyStat) (odo : ℚ)
    (p : Date → Bool) :
    ((sortAscByDate ((assignOdometers (sortDescByDate stats) odo).filter
        (fun day => p day.date))).map (fun d => d.date)).Perm
      ((stats.filter (fun d => p d.date)).map (fun d => d.date)) := by
  have h1 : (sortAscByDate
      ((assignOdometers (sortDescByDate stats) odo).filter
        (fun day => p day.date))).Perm
      ((assignOdometers (sortDescByDate stats) odo).filter
        (fun day => p day.date)) :=
    List.perm_insertionSort dateLe _
  have h2 : ∀ (l : List DailyStat),
      (l.filter (fun day => p day.date)).map (fun d => d.date) =
        (l.map (fun d => d.date)).filter p := by
    intro l
    rw [List.filter_map]
    rfl
  refine (h1.map (fun d => d.date)).trans ?_
  rw [h2, h2, assignOdometers_map_date]
  exact ((List.perm_insertionSort dateGe stats).map (fun d => d.date)).filter p

/-- C4: the reconciler's output consists, in ascending date order, of
exactly the input days in the window `checkpoint_date < date < today`
(all days before today when no checkpoint exists), and a checkpoint dated
today or yesterday empties the output. -/
theorem reconciler_window (stats : List DailyStat) (odo : ℚ) (today : Date)
    (ck : Option Checkpoint) (hv : ∀ d ∈ stats, d.date.valid)
    (ht : today.valid) :
    ((reconcile stats odo today ck).map (fun d => d.date)).Perm
      ((stats.filter (fun d => inWindow ck today d.date)).map
        (fun d => d.date)) ∧
    List.Sorted dateLe (reconcile stats odo today ck) ∧
    (∀ c, ck = some c → (c.date = today ∨ c.date = today.prevDay) →
      reconcile stats odo today ck = []) := by
  by_cases hemp : (sortDescByDate stats).isEmpty = true
  · have hstats : stats = [] := by
      have hperm : (sortDescByDate stats).Perm stats :=
        List.perm_insertionSort dateGe stats
      rw [List.isEmpty_iff] at hemp
      rw [hemp] at hperm
      exact hperm.symm.eq_nil
    have hrec : reconcile stats odo today ck = [] := by
      simp [reconcile, hemp]
    refine ⟨?_, by simp [hrec], fun c _ _ => hrec⟩
    rw [hrec, hstats]
    simp
  · cases ck with
    | none =>
        have hrec : reconcile stats odo today none =
            sortAscByDate ((assignOdometers (sortDescByDate stats) odo).filter
              (fun day => decide (day.date.key < today.key))) := by
          simp [reconcile, hemp]
        refine ⟨?_, ?_, fun c hc => by cases hc⟩
        · rw [hrec]
          have hfc : stats.filter (fun d => inWindow none today d.date) =
              stats.filter (fun d => decide (d.date.key < today.key)) :=
            List.filter_congr (fun d _ => inWindow_none today d.date)
          rw [hfc]
          exact sortAsc_filter_assign_dates stats odo
            (fun dd => decide (dd.key < today.key))
        · rw [hrec]
          exact List.sorted_insertionSort dateLe _
    | some c =>
        by_cases hck : (today.prevDay).key ≤ c.date.key
        · have hrec : reconcile stats odo today (some c) = [] := by
            simp [reconcile, hemp, hck]
          refine ⟨?_, by simp [hrec], fun c' _ _ => hrec⟩
          rw [hrec]
          have hfil : stats.filter (fun d => inWindow (some c) today d.date)
              = [] := by
            rw [List.filter_eq_nil_iff]
            intro d hd
            rw [inWindow_some]
            simp only [decide_eq_true_eq, not_and, not_lt]
            intro hlt
            by_contra hnot
            push_neg at hnot
            have := key_le_prevDay_key (hv d hd) ht hnot
            omega
          rw [hfil]
        · have hrec : reconcile stats odo today (some c) =
              sortAscByDate
                ((assignOdometers (sortDescByDate stats) odo).filter
                  (fun day => decide (c.date.key < day.date.key ∧
                    day.date.key < today.key))) := by
            simp [reconcile, hemp, hck]
          refine ⟨?_, ?_, ?_⟩
          · rw [hrec]
            have hfc : stats.filter (fun d => inWindow (some c) today d.date) =
                stats.filter (fun d => decide (c.date.key < d.date.key ∧
                  d.date.key < today.key)) :=
              List.filter_congr (fun d _ => inWindow_some c today d.date)
            rw [hfc]
            exact sortAsc_filter_assign_dates stats odo
              (fun dd => decide (c.date.key < dd.key ∧ dd.key < today.key))
          · rw [hrec]
            exact List.sorted_insertionSort dateLe _
          · intro c' hc' hdate
            cases hc'
            exfalso
            rcases hdate with hdate | hdate
            · have := prevDay_key_lt ht
              rw [hdate] at hck
              omega
            · rw [hdate] at hck
              omega

/-- C4 witness: a checkpoint dated yesterday empties the output. -/
theorem reconciler_window_w :
    reconcile [dayMay10, dayMay11] 1000 ⟨2024, 5, 12⟩
      (some ⟨⟨2024, 5, 11⟩, 30⟩) = [] := by
  have hv : ∀ d ∈ [dayMay10, dayMay11], d.date.valid := by decide
  have ht : (⟨2024, 5, 12⟩ : Date).valid := by decide
  exact (reconciler_window [dayMay10, dayMay11] 1000 ⟨2024, 5, 12⟩
    (some ⟨⟨2024, 5, 11⟩, 30⟩) hv ht).2.2 ⟨⟨2024, 5, 11⟩, 30⟩ rfl
    (Or.inr (by decide))

/-- C5 counterexample: a pass whose persisted estimator state holds 21 kW
uploads a purely historical day (2024-05-10, two days before today) whose
record carries `charging_power` 21, not 0. -/
theorem historical_day_nonzero_power :
    (passUploads stAfterDC vSnapDC 41 11 [dayMay10] 1000 ⟨2024, 5, 12⟩
        none).map (fun r => (r.charging_power, r.charging_duration)) =
      [(21, 0)] ∧
    (21 : ℚ) ≠ 0 ∧
    dayMay10.date.key < (⟨2024, 5, 12⟩ : Date).key := by
  refine ⟨?_, by norm_num, by decide⟩
  simp [passUploads, reconcile, sortDescByDate, sortAscByDate,
    assignOdometers, send_consumption_record, stAfterDC, dayMay10, mkDay,
    Date.key, dateGe, dateLe]

/-- C5 amended: every record a pass uploads — and the reconciler selects
only days strictly before today, so all of them are historical — carries
the same `charging_power`, namely the estimator's persisted field (zero
unless the last estimator run classified DC), and `charging_duration`
0. -/
theorem pass_uploads_uniform_charging (st : ClientState) (v : VehicleData)
    (price : ℚ) (cur : ℤ) (stats : List DailyStat) (odo : ℚ) (today : Date)
    (ck : Option Checkpoint) :
    ∀ r ∈ passUploads st v price cur stats odo today ck,
      r.charging_power = st.charging_power_in_kilowatts ∧
      r.charging_duration = 0 := by
  intro r hr
  rcases List.mem_map.mp hr with ⟨day, _, rfl⟩
  exact ⟨rfl, rfl⟩

/-- C5 amended witness at the concrete single-day pass. -/
theorem pass_uploads_uniform_charging_w :
    (send_consumption_record stAfterDC vSnapDC 41 11
        { dayMay10 with odometer := (1000 : ℚ) }).charging_power = 21 ∧
    (send_consumption_record stAfterDC vSnapDC 41 11
        { dayMay10 with odometer := (1000 : ℚ) }).charging_duration = 0 := by
  have hmem : send_consumption_record stAfterDC vSnapDC 41 11
      { dayMay10 with odometer := (1000 : ℚ) } ∈
      passUploads stAfterDC vSnapDC 41 11 [dayMay10] 1000 ⟨2024, 5, 12⟩
        none := by
    simp [passUploads, reconcile, sortDescByDate, sortAscByDate,
      assignOdometers, Date.key]
  exact pass_uploads_uniform_charging stAfterDC vSnapDC 41 11 [dayMay10]
    1000 ⟨2024, 5, 12⟩ none _ hmem
